import Mathlib

/-!
# ServerSync store core — shallow embedding

A shallow embedding of the ServerSync store core (src/store/core.ts and
src/store/createStore.ts): JS values with identity, objects as association
lists of own properties, the spread merge `{ ...base, ...patch }`,
`shallowEqual`, and the store state machine (`createStoreAPI`, `setState`,
`subscribe`, `destroy`, `getServerSnapshot`), together with the middleware
composition (`reduceRight`) and action binding (`bindActionsToStore`).

State is passed explicitly: `setState` maps a store and an updater to a new
store plus an observable trace (whether the state changed, which listeners
were invoked and in which order, and which errors were caught and logged).
-/

set_option autoImplicit false

namespace ServerSync

/-- Property keys of a JS object (`Record<string, StateValue>`). -/
abbrev Key := String

/-- The identity of a JS field value, as compared by `Object.is`:
primitives compare by value, objects/arrays by reference (`vRef r` is a
reference to the composite with identity `r`). Numbers are modelled as
integers (no NaN / negative-zero quirks). -/
inductive Value where
  | vNum (n : Int)
  | vStr (s : String)
  | vBool (b : Bool)
  | vNull
  | vUndef
  | vRef (r : Nat)
  deriving DecidableEq, Repr

/-- The own enumerable properties of a plain JS object, in insertion order.
JS objects cannot hold a key twice; that representation invariant is the
`Nodup` hypothesis carried by theorems that need it. -/
abbrev Fields := List (Key × Value)

/-- Property read `o[k]`: the value of the first entry with key `k`. -/
def lookupField : Fields → Key → Option Value
  | [], _ => none
  | (k, v) :: rest, key => if k = key then some v else lookupField rest key

/-- `Object.prototype.hasOwnProperty.call(o, k)` for a plain object. -/
def hasKey (fs : Fields) (k : Key) : Bool :=
  (lookupField fs k).isSome

/-- The key list `Object.keys(o)`. -/
def keysOf (fs : Fields) : List Key :=
  fs.map Prod.fst

/-- The JS object spread `{ ...base, ...patch }`: keys of `base` keep their
position but take the value from `patch` when present (patch wins on
collision); keys present only in `patch` are appended in patch order. -/
def spreadMerge (base patch : Fields) : Fields :=
  base.map (fun kv => (kv.1, (lookupField patch kv.1).getD kv.2))
    ++ patch.filter (fun kv => !hasKey base kv.1)

/-- A JS value as seen by `shallowEqual`: either a non-composite (a
primitive, `null`, a function — anything failing the
`typeof x === "object" && x !== null` test) carrying its `Object.is`
identity, or a composite (plain object/array) with a reference identity
and its own properties. -/
inductive JSVal where
  | atom (v : Value)
  | comp (ref : Nat) (fields : Fields)
  deriving DecidableEq, Repr

/-- `Object.is(a, b)`: value identity for non-composites, reference
identity for composites. -/
def jsIs : JSVal → JSVal → Bool
  | .atom a, .atom b => a = b
  | .comp ra _, .comp rb _ => ra = rb
  | _, _ => false

/-- The field-comparison loop of `shallowEqual` on two composites that are
not reference-identical: own-key counts must agree, and for every own key
of `a`, `b` must have that key as an own property with an `Object.is`-equal
value. -/
def fieldsShallowEq (fa fb : Fields) : Bool :=
  fa.length = fb.length &&
    fa.all (fun kv =>
      match lookupField fb kv.1 with
      | some w => lookupField fa kv.1 = some w
      | none => false)

/-- `shallowEqual(a, b)` from src/store/core.ts: identity fast path, then
`false` unless both sides are non-null composites, then the shallow
own-property comparison. -/
def shallowEqual (a b : JSVal) : Bool :=
  if jsIs a b then true
  else
    match a, b with
    | .comp _ fa, .comp _ fb => fieldsShallowEq fa fb
    | _, _ => false

/-- A subscribed listener (`() => void`). Its JS closure identity is `id`;
`throws` is `some e` when invoking it throws the error `e`. -/
structure Listener where
  id : Nat
  throws : Option String := none
  deriving DecidableEq, Repr

/-- A diagnostic line written through `console.error`. -/
inductive LogEntry where
  | listenerError (e : String)
  | actionError (name : String) (e : String)
  deriving DecidableEq, Repr

/-- The `listeners.forEach` fan-out of `setState`: every listener is
invoked in registration order; a throw is caught and logged and the loop
continues. Returns the invoked listener ids in order and the logged
errors in order. -/
def notifyAll : List Listener → List Nat × List LogEntry
  | [] => ([], [])
  | l :: rest =>
    let r := notifyAll rest
    (l.id :: r.1,
      (match l.throws with
       | some e => [LogEntry.listenerError e]
       | none => []) ++ r.2)

/-- A store instance: the captured construction-time `initialState`, the
`options.ssr?.initialState` override, the live `state` cell, the listener
set in insertion order, and whether the store currently sits in the
devtools registry. -/
structure Store where
  initState : Fields
  ssrInit : Option Fields
  state : Fields
  listeners : List Listener
  inRegistry : Bool
  deriving Repr

/-- `createStoreAPI(initialState, options)`: copies the initial state into
the live cell, starts with no listeners, and registers the store in the
devtools registry unless `devtools` is `false`. -/
structure StoreOptions where
  ssrInitialState : Option Fields := none
  devtools : Bool := true

def createStoreAPI (initialState : Fields) (opts : StoreOptions) : Store :=
  { initState := initialState
    ssrInit := opts.ssrInitialState
    state := initialState
    listeners := []
    inRegistry := opts.devtools }

/-- A `setState` argument: a partial-state object or an updater function
from the current state to a patch. -/
inductive Updater where
  | patch (p : Fields)
  | fn (f : Fields → Fields)

/-- The patch a given updater produces on a given current state. -/
def patchOf (u : Updater) (state : Fields) : Fields :=
  match u with
  | .patch p => p
  | .fn f => f state

/-- The observable outcome of one `setState` call. -/
structure WriteResult where
  store : Store
  changed : Bool
  notified : List Nat
  logs : List LogEntry

/-- `setState` from src/store/core.ts: build the candidate
`{ ...state, ...patch }`; the candidate object is freshly allocated, so the
`shallowEqual(state, nextState)` guard reduces to the own-property
comparison (`fieldsShallowEq`, see `shallowEqual_fresh_comp`); on a change,
install the candidate and fan out to all listeners. -/
def setState (st : Store) (u : Updater) : WriteResult :=
  let nextState := spreadMerge st.state (patchOf u st.state)
  if fieldsShallowEq st.state nextState then
    { store := st, changed := false, notified := [], logs := [] }
  else
    let r := notifyAll st.listeners
    { store := { st with state := nextState }
      changed := true
      notified := r.1
      logs := r.2 }

/-- `subscribe`: `Set.add` — appends the listener unless one with the same
identity is already registered. -/
def subscribe (st : Store) (l : Listener) : Store :=
  if st.listeners.any (fun x => x.id = l.id) then st
  else { st with listeners := st.listeners ++ [l] }

/-- The unsubscribe closure returned by `subscribe`: `Set.delete` of that
listener identity. -/
def unsubscribe (st : Store) (i : Nat) : Store :=
  { st with listeners := st.listeners.filter (fun x => x.id ≠ i) }

/-- `getState` / `getSnapshot`: the live state cell. -/
def getState (st : Store) : Fields :=
  st.state

/-- `getServerSnapshot`: with an `ssr.initialState` override, the captured
original initial state spread with the override; otherwise the live state. -/
def getServerSnapshot (st : Store) : Fields :=
  match st.ssrInit with
  | some ov => spreadMerge st.initState ov
  | none => st.state

/-- `destroy`: clears the listener set and deletes the devtools registry
entry. The state cell is untouched. -/
def destroy (st : Store) : Store :=
  { st with listeners := [], inRegistry := false }

/-- The type of the write path (`(updater) => void`, with the state
threaded explicitly). -/
abbrev Writer := Store → Updater → WriteResult

/-- A middleware `(api) => (next) => (updater) => void`; the api object
handed to the middleware is abstract here. -/
abbrev Middleware (A : Type) := A → Writer → Writer

/-- `middleware.reduceRight((next, mw) => mw(api)(next), originalSetState)`:
the accumulator starts at the raw write and is wrapped by each middleware
from the last declared to the first. -/
def composeMiddleware {A : Type} (api : A) (mws : List (Middleware A)) (raw : Writer) : Writer :=
  mws.foldr (fun mw next => mw api next) raw

/-- The `setState` actually exposed by `createStoreAPI`: the raw write when
no middleware is configured, otherwise the composed chain over the raw
write. -/
def effectiveSetState {A : Type} (api : A) (mws : List (Middleware A)) : Writer :=
  if 0 < mws.length then composeMiddleware api mws setState else setState

/-- An action body `(...args) => updater`; computing the updater may throw. -/
abbrev Action := List Value → Except String Updater

/-- One bound action from `bindActionsToStore`: invoke the action to obtain
the updater and forward it to `setState`; if the invocation throws, log the
error tagged with the action's name and re-throw it to the caller.
Returns the logged entries together with either the thrown error or the
completed write. -/
def boundAction (name : String) (action : Action) (st : Store) (args : List Value) :
    List LogEntry × Except String WriteResult :=
  match action args with
  | .ok u =>
    let r := setState st u
    (r.logs, .ok r)
  | .error e => ([LogEntry.actionError name e], .error e)

/-- One client-side operation on a live store. -/
inductive StoreOp where
  | write (u : Updater)
  | sub (l : Listener)
  | unsub (i : Nat)

/-- Run a sequence of operations, collecting every listener invocation in
order. -/
def runOps : Store → List StoreOp → Store × List Nat
  | st, [] => (st, [])
  | st, .write u :: ops =>
    let r := setState st u
    let rest := runOps r.store ops
    (rest.1, r.notified ++ rest.2)
  | st, .sub l :: ops => runOps (subscribe st l) ops
  | st, .unsub i :: ops => runOps (unsubscribe st i) ops

/-- The identities subscribed at some point during a sequence of
operations. -/
def opsSubIds : List StoreOp → List Nat
  | [] => []
  | .sub l :: ops => l.id :: opsSubIds ops
  | .write _ :: ops => opsSubIds ops
  | .unsub _ :: ops => opsSubIds ops

/-- Fold a sequence of plain writes through `setState`. -/
def runWrites : Store → List Updater → Store
  | st, [] => st
  | st, u :: us => runWrites (setState st u).store us

/-- The equality contract as the spec words it (for comparison with the
source's `shallowEqual`): the two values are identical under
reference/value identity, or both are non-null composites with equal
own-key counts such that for every own key of `a`, `b` has that key as an
own property and the two values are identity-equal. -/
def equalSpec (a b : JSVal) : Prop :=
  jsIs a b = true ∨
  (∃ ra fa rb fb, a = JSVal.comp ra fa ∧ b = JSVal.comp rb fb ∧
    fa.length = fb.length ∧
    ∀ k, hasKey fa k = true →
      hasKey fb k = true ∧ lookupField fb k = lookupField fa k)

/-- A concrete store holding `{count: 0}` with one subscribed listener. -/
def countStore : Store :=
  { initState := [("count", Value.vNum 0)]
    ssrInit := none
    state := [("count", Value.vNum 0)]
    listeners := [{ id := 1 }]
    inRegistry := true }

/-- The same store before any subscription. -/
def bareStore : Store :=
  { countStore with listeners := [] }

/-- A `{count: 0}` store holding a listener that throws on invocation
followed by a well-behaved one. -/
def faultyStore : Store :=
  { countStore with
    listeners := [{ id := 1, throws := some "Listener error" }, { id := 2 }] }

/-- The updater function `s => ({count: s.count + 1})`. -/
def incUpdater : Updater :=
  .fn (fun s =>
    [("count", Value.vNum (match lookupField s "count" with
      | some (.vNum n) => n + 1
      | _ => 0))])

/-- The partial-state updater `{count: 1}`. -/
def oneWrite : Updater :=
  .patch [("count", Value.vNum 1)]

/-- Construction options carrying `ssr: { initialState: {count: 5} }`. -/
def ssrOpts : StoreOptions :=
  { ssrInitialState := some [("count", Value.vNum 5)] }

/-- The single client write `setState({count: 9})`. -/
def nineWrites : List Updater :=
  [.patch [("count", Value.vNum 9)]]

/-- An action body that throws on invocation. -/
def throwingAction : Action :=
  fun _ => .error "Action error"

/-! ## Lookup and merge lemmas -/

theorem lookupField_append (xs ys : Fields) (k : Key) :
    lookupField (xs ++ ys) k = (lookupField xs k).or (lookupField ys k) := by
  induction xs with
  | nil => simp [lookupField]
  | cons kv rest ih =>
    obtain ⟨k', v⟩ := kv
    by_cases h : k' = k <;> simp [lookupField, h, ih]

theorem lookupField_map_patch (b p : Fields) (k : Key) :
    lookupField (b.map (fun kv => (kv.1, (lookupField p kv.1).getD kv.2))) k
      = (lookupField b k).map (fun v => (lookupField p k).getD v) := by
  induction b with
  | nil => simp [lookupField]
  | cons kv rest ih =>
    obtain ⟨k', v⟩ := kv
    by_cases h : k' = k
    · subst h; simp [lookupField]
    · simp [lookupField, h, ih]

theorem lookupField_filter_not_hasKey (b p : Fields) (k : Key) :
    lookupField (p.filter (fun kv => !hasKey b kv.1)) k
      = if hasKey b k then none else lookupField p k := by
  induction p with
  | nil => simp [lookupField]
  | cons kv rest ih =>
    obtain ⟨k', v⟩ := kv
    by_cases h : k' = k
    · subst h
      by_cases hb : hasKey b k' <;> simp [List.filter_cons, hb, lookupField, ih]
    · by_cases hb : hasKey b k' <;> simp [List.filter_cons, hb, lookupField, h, ih]

/-- Patch wins on collision, keys only in the base are preserved. -/
theorem lookupField_spreadMerge (b p : Fields) (k : Key) :
    lookupField (spreadMerge b p) k = (lookupField p k).or (lookupField b k) := by
  unfold spreadMerge
  rw [lookupField_append, lookupField_map_patch, lookupField_filter_not_hasKey]
  rcases hb : lookupField b k with _ | v
  · simp [hasKey, hb]
  · rcases hp : lookupField p k with _ | w <;> simp [hasKey, hb, hp]

theorem lookupField_mem {l : Fields} {k : Key} {v : Value}
    (h : lookupField l k = some v) : (k, v) ∈ l := by
  induction l with
  | nil => simp [lookupField] at h
  | cons kv rest ih =>
    obtain ⟨k', v'⟩ := kv
    by_cases hk : k' = k
    · subst hk
      simp [lookupField] at h
      subst h
      exact List.mem_cons_self _ _
    · simp [lookupField, hk] at h
      exact List.mem_cons_of_mem _ (ih h)

theorem isSome_lookupField_of_mem {l : Fields} {kv : Key × Value} (h : kv ∈ l) :
    (lookupField l kv.1).isSome := by
  induction l with
  | nil => simp at h
  | cons kv' rest ih =>
    obtain ⟨k', v'⟩ := kv'
    rcases List.mem_cons.mp h with h | h
    · subst h; simp [lookupField]
    · by_cases hk : k' = kv.1 <;> simp [lookupField, hk, ih h]

theorem lookupField_eq_of_nodup {l : Fields} (hnd : (keysOf l).Nodup)
    {kv : Key × Value} (h : kv ∈ l) : lookupField l kv.1 = some kv.2 := by
  induction l with
  | nil => simp at h
  | cons kv' rest ih =>
    obtain ⟨k', v'⟩ := kv'
    simp [keysOf, List.nodup_cons] at hnd
    obtain ⟨hnotin, hnd'⟩ := hnd
    rcases List.mem_cons.mp h with h | h
    · subst h; simp [lookupField]
    · by_cases hk : k' = kv.1
      · exact absurd (show (k', kv.2) ∈ rest by rw [hk]; exact h) (hnotin kv.2)
      · simpa [lookupField, hk] using ih (by simpa [keysOf] using hnd') h

/-! ## Shallow equality lemmas -/

/-- On two composites with distinct references — in particular the current
state against the freshly spread candidate in `setState` — `shallowEqual`
is exactly the own-property comparison. -/
theorem shallowEqual_fresh_comp (ra rb : Nat) (fa fb : Fields) (h : ra ≠ rb) :
    shallowEqual (.comp ra fa) (.comp rb fb) = fieldsShallowEq fa fb := by
  simp [shallowEqual, jsIs, h]

/-- The field loop of `shallowEqual`, characterized per own key. -/
theorem fieldsShallowEq_iff (fa fb : Fields) :
    fieldsShallowEq fa fb = true ↔
      (fa.length = fb.length ∧
        ∀ k, hasKey fa k = true →
          hasKey fb k = true ∧ lookupField fb k = lookupField fa k) := by
  unfold fieldsShallowEq
  simp only [Bool.and_eq_true, decide_eq_true_eq, List.all_eq_true]
  constructor
  · rintro ⟨hlen, hall⟩
    refine ⟨hlen, fun k hk => ?_⟩
    rcases ha : lookupField fa k with _ | v
    · simp [hasKey, ha] at hk
    · have hmem := lookupField_mem ha
      have := hall _ hmem
      rcases hb : lookupField fb k with _ | w
      · simp [hb] at this
      · simp only [hb] at this
        simp only [decide_eq_true_eq] at this
        exact ⟨by simp [hasKey, hb], this.symm.trans ha⟩
  · rintro ⟨hlen, hk⟩
    refine ⟨hlen, fun kv hmem => ?_⟩
    obtain ⟨hb, heq⟩ := hk kv.1 (by simp [hasKey, isSome_lookupField_of_mem hmem])
    rcases hbv : lookupField fb kv.1 with _ | w
    · simp [hasKey, hbv] at hb
    · simp only [decide_eq_true_eq]
      rw [← heq, hbv]

/-- If every own property of the candidate carries the very value the
current state already holds at that key, the candidate is shallow-equal to
the current state. -/
theorem fieldsShallowEq_of_no_diff (s p : Fields)
    (h : ∀ kv ∈ spreadMerge s p, lookupField s kv.1 = some kv.2) :
    fieldsShallowEq s (spreadMerge s p) = true := by
  have hfilter : p.filter (fun kv => !hasKey s kv.1) = [] := by
    refine List.filter_eq_nil_iff.mpr fun kv hkv hpred => ?_
    have hmem : kv ∈ spreadMerge s p :=
      List.mem_append_right _ (List.mem_filter.mpr ⟨hkv, hpred⟩)
    have := h kv hmem
    simp only [Bool.not_eq_true'] at hpred
    rw [hasKey, this] at hpred
    simp at hpred
  rw [fieldsShallowEq_iff]
  constructor
  · unfold spreadMerge
    rw [hfilter]
    simp
  · intro k hk
    rcases ha : lookupField s k with _ | v
    · simp [hasKey, ha] at hk
    · have hm : lookupField (spreadMerge s p) k = (lookupField p k).or (some v) := by
        rw [lookupField_spreadMerge, ha]
      rcases hp : lookupField p k with _ | w
      · rw [hp] at hm
        simp only [Option.none_or] at hm
        exact ⟨by simp [hasKey, hm], hm⟩
      · rw [hp] at hm
        simp only [Option.or_some] at hm
        have := h (k, w) (lookupField_mem hm)
        exact ⟨by simp [hasKey, hm], hm.trans (this.symm.trans ha)⟩

/-- When the candidate is shallow-equal to a duplicate-free current state,
the merge is the current state itself (so skipping the install cannot be
observed through `getState`). -/
theorem spreadMerge_eq_self_of_fieldsShallowEq (s p : Fields)
    (hnd : (keysOf s).Nodup)
    (he : fieldsShallowEq s (spreadMerge s p) = true) :
    spreadMerge s p = s := by
  obtain ⟨hlen, hall⟩ := (fieldsShallowEq_iff _ _).mp he
  have hfilter : p.filter (fun kv => !hasKey s kv.1) = [] := by
    have hlen2 : (spreadMerge s p).length
        = s.length + (p.filter (fun kv => !hasKey s kv.1)).length := by
      simp [spreadMerge]
    rw [← hlen] at hlen2
    have : (p.filter (fun kv => !hasKey s kv.1)).length = 0 := by omega
    exact List.length_eq_zero.mp this
  unfold spreadMerge
  rw [hfilter, List.append_nil]
  have : ∀ kv ∈ s, (kv.1, (lookupField p kv.1).getD kv.2) = kv := by
    intro kv hmem
    have hs : lookupField s kv.1 = some kv.2 := lookupField_eq_of_nodup hnd hmem
    rcases hp : lookupField p kv.1 with _ | w
    · simp
    · obtain ⟨-, heq⟩ := hall kv.1 (by simp [hasKey, hs])
      rw [lookupField_spreadMerge, hp, Option.or_some, hs] at heq
      simp only [hp, Option.getD_some]
      have hw : w = kv.2 := by injection heq
      rw [hw]
  calc s.map (fun kv => (kv.1, (lookupField p kv.1).getD kv.2))
      = s.map id := List.map_congr_left this
    _ = s := List.map_id s

/-! ## Fan-out and store-transition lemmas -/

theorem notifyAll_fst (ls : List Listener) :
    (notifyAll ls).1 = ls.map Listener.id := by
  induction ls with
  | nil => rfl
  | cons l rest ih => simp [notifyAll, ih]

theorem notifyAll_snd (ls : List Listener) :
    (notifyAll ls).2 = ls.filterMap (fun l => l.throws.map LogEntry.listenerError) := by
  induction ls with
  | nil => rfl
  | cons l rest ih =>
    rcases h : l.throws with _ | e <;> simp [notifyAll, h, ih, List.filterMap_cons]

theorem setState_state (st : Store) (u : Updater) (hnd : (keysOf st.state).Nodup) :
    (setState st u).store.state = spreadMerge st.state (patchOf u st.state) := by
  unfold setState
  by_cases he : fieldsShallowEq st.state (spreadMerge st.state (patchOf u st.state))
  · simp only [he, if_true]
    exact (spreadMerge_eq_self_of_fieldsShallowEq _ _ hnd he).symm
  · simp [he]

theorem setState_frame (st : Store) (u : Updater) :
    (setState st u).store.initState = st.initState ∧
    (setState st u).store.ssrInit = st.ssrInit ∧
    (setState st u).store.listeners = st.listeners ∧
    (setState st u).store.inRegistry = st.inRegistry := by
  unfold setState
  by_cases he : fieldsShallowEq st.state (spreadMerge st.state (patchOf u st.state)) <;>
    simp [he]

theorem setState_notified_mem {st : Store} {u : Updater} {n : Nat}
    (h : n ∈ (setState st u).notified) : ∃ x ∈ st.listeners, x.id = n := by
  unfold setState at h
  by_cases he : fieldsShallowEq st.state (spreadMerge st.state (patchOf u st.state)) <;>
    simp only [he, if_true, if_false] at h
  · simp at h
  · rw [notifyAll_fst] at h
    simpa using h

theorem runWrites_frame (st : Store) (us : List Updater) :
    (runWrites st us).initState = st.initState ∧
    (runWrites st us).ssrInit = st.ssrInit := by
  induction us generalizing st with
  | nil => exact ⟨rfl, rfl⟩
  | cons u rest ih =>
    obtain ⟨h1, h2⟩ := ih (setState st u).store
    obtain ⟨g1, g2, -, -⟩ := setState_frame st u
    exact ⟨h1.trans g1, h2.trans g2⟩

theorem foldl_subscribe_listeners (ls : List Listener) (st : Store)
    (hnd : (st.listeners.map Listener.id ++ ls.map Listener.id).Nodup) :
    (ls.foldl subscribe st).listeners = st.listeners ++ ls := by
  induction ls generalizing st with
  | nil => simp
  | cons l rest ih =>
    have hnotin : l.id ∉ st.listeners.map Listener.id := by
      have := (List.nodup_append.mp hnd).2.2
      intro hmem
      exact this hmem (by simp)
    have hany : st.listeners.any (fun x => x.id = l.id) = false := by
      simp only [List.any_eq_false, decide_eq_true_eq]
      intro x hx hid
      exact hnotin (by simpa [hid] using List.mem_map_of_mem Listener.id hx)
    have hsub : subscribe st l = { st with listeners := st.listeners ++ [l] } := by
      simp [subscribe, hany]
    have hnd' : (({ st with listeners := st.listeners ++ [l] } : Store).listeners.map
        Listener.id ++ rest.map Listener.id).Nodup := by
      show ((st.listeners ++ [l]).map Listener.id ++ rest.map Listener.id).Nodup
      rw [List.map_append, List.append_assoc]
      simpa using hnd
    rw [List.foldl_cons, hsub, ih _ hnd']
    simp

theorem runOps_notified_mem (ops : List StoreOp) (st : Store) (n : Nat)
    (h : n ∈ (runOps st ops).2) :
    (∃ x ∈ st.listeners, x.id = n) ∨ n ∈ opsSubIds ops := by
  induction ops generalizing st with
  | nil => simp [runOps] at h
  | cons op rest ih =>
    cases op with
    | write u =>
      simp only [runOps, List.mem_append] at h
      rcases h with h | h
      · exact Or.inl (setState_notified_mem h)
      · rcases ih (setState st u).store h with ⟨x, hx, hid⟩ | h2
        · obtain ⟨-, -, hl, -⟩ := setState_frame st u
          rw [hl] at hx
          exact Or.inl ⟨x, hx, hid⟩
        · exact Or.inr h2
    | sub l =>
      simp only [runOps] at h
      rcases ih (subscribe st l) h with ⟨x, hx, hid⟩ | h2
      · unfold subscribe at hx
        by_cases hany : st.listeners.any (fun y => y.id = l.id)
        · simp only [hany, if_true] at hx
          exact Or.inl ⟨x, hx, hid⟩
        · simp only [hany, Bool.false_eq_true, if_false, List.mem_append,
            List.mem_singleton] at hx
          rcases hx with hx | hx
          · exact Or.inl ⟨x, hx, hid⟩
          · subst hx
            exact Or.inr (by simp [opsSubIds, hid.symm])
      · exact Or.inr (by simp [opsSubIds, h2])
    | unsub i =>
      simp only [runOps] at h
      rcases ih (unsubscribe st i) h with ⟨x, hx, hid⟩ | h2
      · exact Or.inl ⟨x, List.mem_of_mem_filter hx, hid⟩
      · exact Or.inr h2

/-! ## Claims -/

/-- C1: a write whose candidate `{ ...state, ...patch }` carries no
own-property value differing (under `Object.is`) from the current state is
a no-op: the change flag stays false, no new snapshot is installed (the
store is unchanged), no listener is invoked and nothing is logged. -/
theorem noop_write_is_silent (st : Store) (u : Updater)
    (h : ∀ kv ∈ spreadMerge st.state (patchOf u st.state),
      lookupField st.state kv.1 = some kv.2) :
    (setState st u).changed = false ∧ (setState st u).store = st ∧
      (setState st u).notified = [] ∧ (setState st u).logs = [] := by
  have he := fieldsShallowEq_of_no_diff st.state (patchOf u st.state) h
  simp [setState, he]

theorem noop_write_is_silent_witness :
    (∀ kv ∈ spreadMerge countStore.state
        (patchOf (Updater.patch [("count", Value.vNum 0)]) countStore.state),
      lookupField countStore.state kv.1 = some kv.2) ∧
    ((setState countStore (Updater.patch [("count", Value.vNum 0)])).changed = false ∧
      (setState countStore (Updater.patch [("count", Value.vNum 0)])).store = countStore ∧
      (setState countStore (Updater.patch [("count", Value.vNum 0)])).notified = [] ∧
      (setState countStore (Updater.patch [("count", Value.vNum 0)])).logs = []) :=
  ⟨by decide,
    noop_write_is_silent countStore (Updater.patch [("count", Value.vNum 0)]) (by decide)⟩

/-- C2: `setState` installs the shallow top-level merge of the current
state with the patch (the updater applied to the current state when it is
a function): patch keys win on collision and keys present only in the
current state are preserved. -/
theorem setState_installs_shallow_merge (st : Store) (u : Updater)
    (hnd : (keysOf st.state).Nodup) :
    (setState st u).store.state = spreadMerge st.state (patchOf u st.state) ∧
    ∀ k, lookupField (setState st u).store.state k
        = (lookupField (patchOf u st.state) k).or (lookupField st.state k) := by
  refine ⟨setState_state st u hnd, fun k => ?_⟩
  rw [setState_state st u hnd, lookupField_spreadMerge]

theorem setState_installs_shallow_merge_witness :
    (keysOf countStore.state).Nodup ∧
    (setState countStore incUpdater).store.state
        = spreadMerge countStore.state (patchOf incUpdater countStore.state) ∧
    lookupField (getState (setState countStore incUpdater).store) "count"
        = some (Value.vNum 1) :=
  ⟨by decide,
    (setState_installs_shallow_merge countStore incUpdater (by decide)).1,
    by decide⟩

/-- C9: `shallowEqual(a, b)` returns true exactly when `a` and `b` are
identical under `Object.is`, or both are non-null composites with equal
own-key counts whose per-own-key values of `a` all exist on `b` and are
identity-equal; consequently `shallowEqual` is reflexive. -/
theorem shallowEqual_characterization (a b : JSVal) :
    (shallowEqual a b = true ↔ equalSpec a b) ∧ shallowEqual a a = true := by
  constructor
  · constructor
    · intro h
      by_cases hid : jsIs a b
      · exact Or.inl hid
      · rcases a with v | ⟨ra, fa⟩ <;> rcases b with w | ⟨rb, fb⟩ <;>
          simp [shallowEqual, hid] at h
        obtain ⟨hlen, hk⟩ := (fieldsShallowEq_iff fa fb).mp h
        exact Or.inr ⟨ra, fa, rb, fb, rfl, rfl, hlen, hk⟩
    · intro h
      rcases h with h | ⟨ra, fa, rb, fb, ha, hb, hlen, hk⟩
      · simp [shallowEqual, h]
      · subst ha; subst hb
        by_cases hid : jsIs (JSVal.comp ra fa) (JSVal.comp rb fb)
        · simp [shallowEqual, hid]
        · simp only [shallowEqual, hid, if_false]
          exact (fieldsShallowEq_iff fa fb).mpr ⟨hlen, hk⟩
  · rcases a with v | ⟨r, f⟩ <;> simp [shallowEqual, jsIs]

/-- C3: subscribing N distinct listeners to a store with no subscribers
and then performing one changed write invokes exactly those N listeners,
once each, in subscription order. -/
theorem changed_write_notifies_in_subscription_order (st : Store)
    (ls : List Listener) (u : Updater)
    (h0 : st.listeners = [])
    (hnd : (ls.map Listener.id).Nodup)
    (hch : (setState (ls.foldl subscribe st) u).changed = true) :
    (setState (ls.foldl subscribe st) u).notified = ls.map Listener.id := by
  have hl : (ls.foldl subscribe st).listeners = ls := by
    have := foldl_subscribe_listeners ls st (by simp [h0, hnd])
    simpa [h0] using this
  unfold setState at hch ⊢
  by_cases he : fieldsShallowEq (ls.foldl subscribe st).state
      (spreadMerge (ls.foldl subscribe st).state (patchOf u (ls.foldl subscribe st).state))
  · simp [he] at hch
  · simp [he, notifyAll_fst, hl]

theorem changed_write_notifies_in_subscription_order_witness :
    bareStore.listeners = [] ∧
    (([{ id := 1 }, { id := 2 }] : List Listener).map Listener.id).Nodup ∧
    (setState (([{ id := 1 }, { id := 2 }] : List Listener).foldl subscribe bareStore)
        oneWrite).changed = true ∧
    (setState (([{ id := 1 }, { id := 2 }] : List Listener).foldl subscribe bareStore)
        oneWrite).notified = [1, 2] :=
  ⟨by decide, by decide, by decide,
    changed_write_notifies_in_subscription_order bareStore [{ id := 1 }, { id := 2 }]
      oneWrite (by decide) (by decide) (by decide)⟩

/-- C4: during fan-out after a changed write every registered listener is
invoked in order — including every listener after a throwing one — and
each thrown error is caught and logged; `setState` itself always returns
normally, so a listener error never surfaces to the writer. -/
theorem listener_throw_does_not_stop_fanout (st : Store) (u : Updater)
    (hch : (setState st u).changed = true) :
    (setState st u).notified = st.listeners.map Listener.id ∧
    (setState st u).logs
        = st.listeners.filterMap (fun l => l.throws.map LogEntry.listenerError) := by
  unfold setState at hch ⊢
  by_cases he : fieldsShallowEq st.state (spreadMerge st.state (patchOf u st.state))
  · simp [he] at hch
  · simp only [he, if_false]
    exact ⟨notifyAll_fst _, notifyAll_snd _⟩

theorem listener_throw_does_not_stop_fanout_witness :
    (setState faultyStore oneWrite).changed = true ∧
    ((setState faultyStore oneWrite).notified = [1, 2] ∧
      (setState faultyStore oneWrite).logs = [LogEntry.listenerError "Listener error"]) :=
  ⟨by decide, listener_throw_does_not_stop_fanout faultyStore oneWrite (by decide)⟩

/-- C5: with an `ssr.initialState` override, `getServerSnapshot` is the
original initial state shallow-merged with the override and is unchanged
by any sequence of subsequent writes; without an override it is the live
current state. -/
theorem serverSnapshot_frozen_or_live (init : Fields) (opts : StoreOptions)
    (us : List Updater) :
    (∀ ov, opts.ssrInitialState = some ov →
      getServerSnapshot (runWrites (createStoreAPI init opts) us)
        = spreadMerge init ov) ∧
    (opts.ssrInitialState = none →
      getServerSnapshot (runWrites (createStoreAPI init opts) us)
        = getState (runWrites (createStoreAPI init opts) us)) := by
  obtain ⟨h1, h2⟩ := runWrites_frame (createStoreAPI init opts) us
  constructor
  · intro ov hov
    unfold getServerSnapshot
    rw [h2, h1]
    simp [createStoreAPI, hov]
  · intro hnone
    unfold getServerSnapshot
    rw [h2]
    simp [createStoreAPI, hnone, getState]

theorem serverSnapshot_frozen_or_live_witness :
    ssrOpts.ssrInitialState = some [("count", Value.vNum 5)] ∧
    getServerSnapshot (runWrites (createStoreAPI [("count", Value.vNum 0)] ssrOpts) nineWrites)
        = spreadMerge [("count", Value.vNum 0)] [("count", Value.vNum 5)] ∧
    lookupField (getServerSnapshot
        (runWrites (createStoreAPI [("count", Value.vNum 0)] ssrOpts) nineWrites)) "count"
      = some (Value.vNum 5) ∧
    lookupField (getState
        (runWrites (createStoreAPI [("count", Value.vNum 0)] ssrOpts) nineWrites)) "count"
      = some (Value.vNum 9) :=
  ⟨rfl,
    (serverSnapshot_frozen_or_live [("count", Value.vNum 0)] ssrOpts nineWrites).1 _ rfl,
    by decide, by decide⟩

/-- C6: the effective `setState` of a store built with a middleware list
is the right-to-left composition of the middlewares over the raw write:
the first-declared middleware produces the outermost writer (its `next` is
the composition of the remaining middlewares over the raw write), and the
last-declared middleware receives the raw write as its `next`. -/
theorem middleware_composes_right_to_left {A : Type} (api : A)
    (m : Middleware A) (ms : List (Middleware A)) (raw : Writer) :
    effectiveSetState api (m :: ms) = m api (composeMiddleware api ms setState) ∧
    composeMiddleware api (ms ++ [m]) raw = composeMiddleware api ms (m api raw) := by
  constructor
  · simp [effectiveSetState, composeMiddleware]
  · simp [composeMiddleware]

/-- C7: when the action function throws as the bound callable is invoked,
the error is logged tagged with the action's name and the same error is
re-thrown to the caller. -/
theorem action_error_logged_and_rethrown (name : String) (action : Action)
    (st : Store) (args : List Value) (e : String)
    (h : action args = .error e) :
    (boundAction name action st args).2 = .error e ∧
    LogEntry.actionError name e ∈ (boundAction name action st args).1 := by
  simp [boundAction, h]

theorem action_error_logged_and_rethrown_witness :
    throwingAction [] = .error "Action error" ∧
    ((boundAction "errorAction" throwingAction countStore []).2
        = .error "Action error" ∧
      LogEntry.actionError "errorAction" "Action error"
        ∈ (boundAction "errorAction" throwingAction countStore []).1) :=
  ⟨rfl,
    action_error_logged_and_rethrown "errorAction" throwingAction countStore []
      "Action error" rfl⟩

/-- C8: a listener registered before `destroy` and not re-subscribed
afterwards is never invoked by any sequence of operations executed after
the destroy. -/
theorem destroyed_listener_never_notified (st : Store) (ops : List StoreOp)
    (l : Listener) (_hl : l ∈ st.listeners) (hsub : l.id ∉ opsSubIds ops) :
    l.id ∉ (runOps (destroy st) ops).2 := by
  intro hmem
  rcases runOps_notified_mem ops (destroy st) l.id hmem with ⟨x, hx, -⟩ | h
  · simp [destroy] at hx
  · exact hsub h

theorem destroyed_listener_never_notified_witness :
    ({ id := 1 } : Listener) ∈ countStore.listeners ∧
    (1 : Nat) ∉ opsSubIds [StoreOp.write oneWrite] ∧
    (1 : Nat) ∉ (runOps (destroy countStore) [StoreOp.write oneWrite]).2 :=
  ⟨by decide, by decide,
    destroyed_listener_never_notified countStore [StoreOp.write oneWrite]
      { id := 1 } (by decide) (by decide)⟩

/-- C10: `destroy` only clears the listener set and removes the devtools
registry entry — the state cell and the write path survive: a post-destroy
write whose candidate differs still installs the merge, visible through
`getState`/`getSnapshot`, while notifying nobody. -/
theorem destroy_leaves_write_path_live (st : Store) (u : Updater)
    (hne : fieldsShallowEq st.state (spreadMerge st.state (patchOf u st.state)) = false) :
    (destroy st).state = st.state ∧ (destroy st).listeners = [] ∧
    (destroy st).inRegistry = false ∧
    (setState (destroy st) u).changed = true ∧
    getState (setState (destroy st) u).store
        = spreadMerge st.state (patchOf u st.state) ∧
    (setState (destroy st) u).notified = [] := by
  refine ⟨rfl, rfl, rfl, ?_, ?_, ?_⟩ <;>
    simp [setState, destroy, hne, getState, notifyAll]

theorem destroy_leaves_write_path_live_witness :
    fieldsShallowEq countStore.state
        (spreadMerge countStore.state (patchOf oneWrite countStore.state)) = false ∧
    ((destroy countStore).state = countStore.state ∧
      (destroy countStore).listeners = [] ∧
      (destroy countStore).inRegistry = false ∧
      (setState (destroy countStore) oneWrite).changed = true ∧
      getState (setState (destroy countStore) oneWrite).store
        = spreadMerge countStore.state (patchOf oneWrite countStore.state) ∧
      (setState (destroy countStore) oneWrite).notified = []) :=
  ⟨by decide, destroy_leaves_write_path_live countStore oneWrite (by decide)⟩

end ServerSync
